import Mathlib

/-!
Verification of the number-classification HTTP service (`main.go`).

The handler and the number-property evaluator are embedded shallowly:
Go `int` is modelled as `Int` (the spec, section 7, documents machine
overflow and floating-point precision on very large inputs as an
out-of-scope platform boundary, so arithmetic is exact here), Go loops
become structural or well-founded recursion, and the query string is a
`List Char`.  The outbound fun-fact HTTP call is modelled by an oracle
argument so the handler stays a pure function.
-/

/-- Models `unicode.IsSpace` on the ASCII whitespace characters that
`strings.TrimSpace` strips (the query strings considered here are ASCII). -/
def isSpaceChar (c : Char) : Bool :=
  c = ' ' || c = '\t' || c = '\n' || c = '\r'

/-- Models `strings.TrimSpace` (main.go line 19): drop whitespace from both
ends of the string. -/
def trimSpace (s : List Char) : List Char :=
  ((s.dropWhile isSpaceChar).reverse.dropWhile isSpaceChar).reverse

/-- Decimal digit test used by the float grammar. -/
def isDigitChar (c : Char) : Bool :=
  '0' ≤ c && c ≤ '9'

/-- Numeric value of a decimal digit character. -/
def digToNat (c : Char) : Nat :=
  c.toNat - 48

/-- Value of a big-endian list of decimal digit characters. -/
def natOfDigits (l : List Char) : Nat :=
  l.foldl (fun a c => 10 * a + digToNat c) 0

/-- Optional leading sign, as in the `strconv` number grammars: returns the
sign (as `1` or `-1`) and the remaining characters. -/
def parseSign : List Char → Int × List Char
  | '+' :: r => (1, r)
  | '-' :: r => (-1, r)
  | r => (1, r)

/-- Exact value of an accepted decimal floating-point literal, kept in the
form `sign * mant * 10 ^ exp` (exact rational semantics of the literal;
the spec treats float64 rounding of huge literals as an out-of-scope
platform boundary). -/
structure FloatVal where
  sign : Int
  mant : Nat
  exp : Int
  deriving Repr, DecidableEq

/-- Exponent part of the float grammar: optional sign then one or more
digits, consuming the whole remaining string. -/
def parseExpPart (s : List Char) : Option Int :=
  let (es, r) := parseSign s
  let ed := r.takeWhile isDigitChar
  let r2 := r.dropWhile isDigitChar
  if ed.isEmpty then none
  else if r2.isEmpty then some (es * (natOfDigits ed : Int)) else none

/-- Models `strconv.ParseFloat` (main.go line 22) on the decimal-literal
fragment of its input language: optional sign, an integer part and/or a
fractional part (at least one digit overall), and an optional `e`/`E`
exponent.  The exotic forms (hex floats, `inf`, `nan`, digit-separating
underscores) are outside the inputs considered here.  Returns the exact
value of the literal. -/
def parseFloatM (s : List Char) : Option FloatVal :=
  let (sg, r1) := parseSign s
  let ip := r1.takeWhile isDigitChar
  let r2 := r1.dropWhile isDigitChar
  let mantissa : Option (Nat × Nat × List Char) :=
    match r2 with
    | '.' :: r3 =>
      let fp := r3.takeWhile isDigitChar
      let r4 := r3.dropWhile isDigitChar
      if ip.isEmpty && fp.isEmpty then none
      else some (natOfDigits (ip ++ fp), fp.length, r4)
    | _ => if ip.isEmpty then none else some (natOfDigits ip, 0, r2)
  match mantissa with
  | none => none
  | some (m, fl, rest) =>
    match rest with
    | [] => some ⟨sg, m, -(fl : Int)⟩
    | 'e' :: r5 => (parseExpPart r5).map fun e => ⟨sg, m, e - (fl : Int)⟩
    | 'E' :: r5 => (parseExpPart r5).map fun e => ⟨sg, m, e - (fl : Int)⟩
    | _ => none

/-- Models the Go conversion `int(numberFloat)` (main.go line 33): the float
value truncated toward zero. -/
def truncToInt (v : FloatVal) : Int :=
  if 0 ≤ v.exp then v.sign * ((v.mant : Int) * 10 ^ v.exp.toNat)
  else v.sign * ((v.mant / 10 ^ (-v.exp).toNat : Nat) : Int)

/-- The language `strconv.Atoi` accepts: optional sign then one or more
decimal digits. -/
def isIntLiteral (s : List Char) : Bool :=
  let (_, r) := parseSign s
  !r.isEmpty && r.all isDigitChar

/-- Integer value of an accepted integer literal. -/
def intLitVal (s : List Char) : Int :=
  (parseSign s).1 * (natOfDigits (parseSign s).2 : Int)

/-- The trial-division loop of `isPrime` (main.go lines 65-69): starting
from `i`, reject the first value up to `sqrt n` that divides `n`.
(`int(math.Sqrt(float64(n)))` is the exact integer square root for the
platform-representable range, modelled as `Nat.sqrt`.) -/
def primeLoop (n : Nat) (i : Nat) : Bool :=
  if _h : i ≤ Nat.sqrt n then
    if n % i = 0 then false else primeLoop n (i + 1)
  else true
termination_by Nat.sqrt n + 1 - i

/-- Models `isPrime` (main.go lines 61-71). -/
def isPrime (n : Int) : Bool :=
  if n < 2 then false
  else primeLoop n.toNat 2

/-- The divisor-summing loop of `isPerfect` (main.go lines 79-84): sum of
all `j` with `i ≤ j < n` that divide `n`. -/
def properSumLoop (n : Nat) (i : Nat) : Nat :=
  if _h : i < n then
    (if n % i = 0 then i else 0) + properSumLoop n (i + 1)
  else 0
termination_by n - i

/-- Models `isPerfect` (main.go lines 74-86): guard out `n ≤ 0`, then
compare the sum of the divisors in `1..n-1` with `n`. -/
def isPerfect (n : Int) : Bool :=
  if n ≤ 0 then false
  else properSumLoop n.toNat 1 == n.toNat

/-- Length of `strconv.Itoa` for a nonnegative value: decimal digit count,
with `0` rendered as the single character `0`. -/
def natDigitLen (m : Nat) : Nat :=
  if _h : m < 10 then 1 else 1 + natDigitLen (m / 10)
termination_by m

/-- Models `len(strconv.Itoa(n))` (main.go line 92): a negative value is
rendered with a leading minus sign. -/
def itoaLen (n : Int) : Nat :=
  if n < 0 then 1 + natDigitLen n.natAbs else natDigitLen n.toNat

/-- The digit-power loop of `isArmstrong` (main.go lines 94-98): while
`temp > 0`, add `digit ^ d` and shift.  The loop only runs on positive
values, so it is stated on `Nat`; `int(math.Pow(...))` on digit bases is
the exact power in the platform-representable range. -/
def armSum (temp : Nat) (d : Nat) : Nat :=
  if _h : 0 < temp then (temp % 10) ^ d + armSum (temp / 10) d
  else 0
termination_by temp

/-- Models `isArmstrong` (main.go lines 89-101): sum each digit raised to
the Itoa length of `n`, and compare with `n`.  For `n ≤ 0` the Go loop
body never runs, so the comparison is `0 == n`. -/
def isArmstrong (n : Int) : Bool :=
  ((armSum n.toNat (itoaLen n) : Int) == n)

/-- The digit-summing loop of `digitSum` (main.go lines 107-110), run on
the absolute value, hence on `Nat`. -/
def digitLoop (m : Nat) : Nat :=
  if _h : m = 0 then 0 else m % 10 + digitLoop (m / 10)
termination_by m

/-- Models `digitSum` (main.go lines 104-112): take the absolute value
(`int(math.Abs(float64(n)))`, exact in the platform-representable range),
then sum decimal digits. -/
def digitSum (n : Int) : Int :=
  (digitLoop n.natAbs : Int)

/-- Models the property-tag assembly of the handler (main.go lines 36-44):
append `armstrong` when applicable, then exactly one of `even`/`odd`.
Go `%` and Lean `%` differ on negative operands only in the sign of the
remainder, so the `== 0` test coincides. -/
def propertiesOf (n : Int) : List String :=
  (if isArmstrong n then ["armstrong"] else []) ++
    [if n % 2 == 0 then "even" else "odd"]

/-- Outcome of the outbound call to the numbers API as seen by
`getFunFact` (main.go lines 115-134): the HTTP request errors, the body
fails to decode as JSON, or it decodes to an object whose `text` field is
a string or is missing/not a string. -/
inductive FetchOutcome where
  | netError : FetchOutcome
  | decodeError : FetchOutcome
  | jsonValue (text : Option String) : FetchOutcome
  deriving DecidableEq

/-- The locally generated fallback fact
(`fmt.Sprintf` at main.go lines 119, 126, 133). -/
def fallbackFact (n : Int) : String :=
  toString n ++ " is an interesting number!"

/-- Models `getFunFact` (main.go lines 115-134), with the network modelled
by the `fetch` oracle: every failure branch returns the fallback string. -/
def getFunFact (fetch : Int → FetchOutcome) (n : Int) : String :=
  match fetch n with
  | .netError => fallbackFact n
  | .decodeError => fallbackFact n
  | .jsonValue none => fallbackFact n
  | .jsonValue (some fact) => fact

/-- The fields of the success JSON body (main.go lines 47-54). -/
structure SuccessBody where
  number : Int
  is_prime : Bool
  is_perfect : Bool
  properties : List String
  digit_sum : Int
  fun_fact : String
  deriving DecidableEq

/-- The fields of the error JSON body (main.go lines 25-28). -/
structure ErrorBody where
  number : List Char
  error : Bool
  deriving DecidableEq

/-- A handler response: success body with HTTP 200, or error body with
HTTP 400. -/
inductive Response where
  | ok (body : SuccessBody) : Response
  | badRequest (body : ErrorBody) : Response
  deriving DecidableEq

/-- The HTTP status code attached to each response
(main.go lines 25 and 57). -/
def statusOf : Response → Nat
  | .ok _ => 200
  | .badRequest _ => 400

/-- The `number` field of a success response, when there is one. -/
def responseNumber : Response → Option Int
  | .ok body => some body.number
  | .badRequest _ => none

/-- Models the handler `classifyNumber` (main.go lines 17-58): trim the
query value, parse it with `ParseFloat`, answer 400 on failure echoing the
trimmed input, otherwise truncate to an integer and assemble the success
body from the evaluator.  A missing `number` parameter reaches the handler
as the empty string (`c.Query` in gin). -/
def classifyNumber (fetch : Int → FetchOutcome) (rawQuery : List Char) :
    Response :=
  let numberStr := trimSpace rawQuery
  match parseFloatM numberStr with
  | none => .badRequest ⟨numberStr, true⟩
  | some v =>
    let number := truncToInt v
    .ok ⟨number, isPrime number, isPerfect number, propertiesOf number,
      digitSum number, getFunFact fetch number⟩

/-- Digit count named by the spec (section 4.1): number of decimal digits
of the magnitude, with the digit count of `0` defined as `1`. -/
def specDigitCount (m : Nat) : Nat :=
  if m = 0 then 1 else (Nat.digits 10 m).length

/-- The digit-power sum named by the spec (section 4.1): each decimal
digit of the magnitude raised to the digit count. -/
def specDigitPowSum (m : Nat) : Nat :=
  ((Nat.digits 10 m).map (fun t => t ^ specDigitCount m)).sum

set_option maxRecDepth 4000

lemma parseSign_other (c : Char) (r : List Char) (h1 : c ≠ '+') (h2 : c ≠ '-') :
    parseSign (c :: r) = (1, c :: r) := by
  unfold parseSign
  split
  · next heq => injection heq with hc _; exact absurd hc h1
  · next heq => injection heq with hc _; exact absurd hc h2
  · rfl

lemma takeWhile_eq_self_of_all (p : Char → Bool) (l : List Char)
    (h : ∀ c ∈ l, p c = true) : l.takeWhile p = l := by
  induction l with
  | nil => rfl
  | cons a t ih =>
    rw [List.takeWhile_cons, h a (List.mem_cons_self a t)]
    simp [ih fun c hc => h c (List.mem_cons_of_mem a hc)]

lemma dropWhile_eq_nil_of_all (p : Char → Bool) (l : List Char)
    (h : ∀ c ∈ l, p c = true) : l.dropWhile p = [] := by
  induction l with
  | nil => rfl
  | cons a t ih =>
    rw [List.dropWhile_cons, h a (List.mem_cons_self a t)]
    exact if_pos rfl ▸ ih fun c hc => h c (List.mem_cons_of_mem a hc)

lemma dropWhile_append_of_all (p : Char → Bool) (l₁ l₂ : List Char)
    (h : ∀ c ∈ l₁, p c = true) : (l₁ ++ l₂).dropWhile p = l₂.dropWhile p := by
  induction l₁ with
  | nil => rfl
  | cons a t ih =>
    rw [List.cons_append, List.dropWhile_cons, h a (List.mem_cons_self a t)]
    simp only [if_true]
    exact ih fun c hc => h c (List.mem_cons_of_mem a hc)

lemma dropWhile_eq_self_of_all_false (p : Char → Bool) (l : List Char)
    (h : ∀ c ∈ l, p c = false) : l.dropWhile p = l := by
  cases l with
  | nil => rfl
  | cons a t =>
    rw [List.dropWhile_cons, h a (List.mem_cons_self a t)]
    simp

lemma dropWhile_of_head_false (p : Char → Bool) (a : Char) (l : List Char)
    (h : p a = false) : (a :: l).dropWhile p = a :: l := by
  rw [List.dropWhile_cons, h]
  simp

lemma trimSpace_eq_self (s : List Char)
    (hs : ∀ c ∈ s, isSpaceChar c = false) : trimSpace s = s := by
  unfold trimSpace
  rw [dropWhile_eq_self_of_all_false _ _ hs,
    dropWhile_eq_self_of_all_false _ _ (fun c hc => hs c (List.mem_reverse.mp hc)),
    List.reverse_reverse]

lemma trimSpace_pad (w₁ w₂ s : List Char)
    (hw₁ : ∀ c ∈ w₁, isSpaceChar c = true) (hw₂ : ∀ c ∈ w₂, isSpaceChar c = true)
    (hs : ∀ c ∈ s, isSpaceChar c = false) (hne : s ≠ []) :
    trimSpace (w₁ ++ s ++ w₂) = s := by
  unfold trimSpace
  rw [List.append_assoc, dropWhile_append_of_all _ _ _ hw₁]
  have h2 : (s ++ w₂).dropWhile isSpaceChar = s ++ w₂ := by
    cases s with
    | nil => exact absurd rfl hne
    | cons a t =>
      rw [List.cons_append]
      exact dropWhile_of_head_false _ _ _ (hs a (List.mem_cons_self a t))
  rw [h2, List.reverse_append,
    dropWhile_append_of_all _ _ _ (fun c hc => hw₂ c (List.mem_reverse.mp hc)),
    dropWhile_eq_self_of_all_false _ _ (fun c hc => hs c (List.mem_reverse.mp hc)),
    List.reverse_reverse]


lemma digitChar_not_space (c : Char) (h : isDigitChar c = true) :
    isSpaceChar c = false := by
  cases hc : isSpaceChar c with
  | false => rfl
  | true =>
    exfalso
    simp only [isSpaceChar, Bool.or_eq_true, decide_eq_true_eq] at hc
    rcases hc with ((rfl | rfl) | rfl) | rfl <;> exact absurd h (by decide)

lemma isIntLiteral_elim (s : List Char) (h : isIntLiteral s = true) :
    (parseSign s).2 ≠ [] ∧ ∀ c ∈ (parseSign s).2, isDigitChar c = true := by
  unfold isIntLiteral at h
  rw [Bool.and_eq_true, Bool.not_eq_true', List.all_eq_true] at h
  refine ⟨fun hnil => ?_, fun c hc => h.2 c hc⟩
  have h1 := h.1
  rw [hnil] at h1
  exact absurd h1 (by decide)

lemma intLit_chars (s : List Char) (h : isIntLiteral s = true) :
    s ≠ [] ∧ ∀ c ∈ s, isSpaceChar c = false := by
  obtain ⟨hne, hdig⟩ := isIntLiteral_elim s h
  cases s with
  | nil => exact (hne rfl).elim
  | cons a t =>
    refine ⟨List.cons_ne_nil a t, ?_⟩
    by_cases ha1 : a = '+'
    · subst ha1
      intro c hc
      rcases List.mem_cons.mp hc with rfl | hct
      · decide
      · exact digitChar_not_space c (hdig c hct)
    by_cases ha2 : a = '-'
    · subst ha2
      intro c hc
      rcases List.mem_cons.mp hc with rfl | hct
      · decide
      · exact digitChar_not_space c (hdig c hct)
    · rw [parseSign_other a t ha1 ha2] at hdig
      exact fun c hc => digitChar_not_space c (hdig c hc)

lemma parseFloatM_intLit (s : List Char) (h : isIntLiteral s = true) :
    parseFloatM s = some ⟨(parseSign s).1, natOfDigits (parseSign s).2, 0⟩ := by
  obtain ⟨hne, hdig⟩ := isIntLiteral_elim s h
  unfold parseFloatM
  rcases hps : parseSign s with ⟨sg, r⟩
  rw [hps] at hne hdig
  simp only at hne hdig ⊢
  rw [takeWhile_eq_self_of_all _ _ hdig, dropWhile_eq_nil_of_all _ _ hdig]
  have hre : r.isEmpty = false := by
    cases r with
    | nil => exact absurd rfl hne
    | cons a t => rfl
  simp only [hre, Bool.false_eq_true, if_false, Nat.cast_zero, neg_zero]

lemma truncToInt_intLit (sg : Int) (m : Nat) :
    truncToInt ⟨sg, m, 0⟩ = sg * m := by
  simp [truncToInt]

lemma sqrt_eq_of_bounds (k n : Nat) (h1 : k * k ≤ n) (h2 : n < (k + 1) * (k + 1)) :
    Nat.sqrt n = k :=
  Nat.le_antisymm (Nat.lt_succ_iff.mp (Nat.sqrt_lt.mpr h2)) (Nat.le_sqrt.mpr h1)

lemma primeLoop_eq_true_iff (n : Nat) :
    ∀ i, primeLoop n i = true ↔ ∀ j, i ≤ j → j ≤ Nat.sqrt n → n % j ≠ 0 := by
  intro i
  induction i using primeLoop.induct n with
  | case1 x hx hdvd =>
    rw [primeLoop.eq_def, dif_pos hx, if_pos hdvd]
    simp only [Bool.false_eq_true, false_iff, not_forall]
    exact ⟨x, le_rfl, hx, by simp [hdvd]⟩
  | case2 x hx hnd ih =>
    rw [primeLoop.eq_def, dif_pos hx, if_neg hnd, ih]
    constructor
    · intro h j hxj hjs
      rcases Nat.eq_or_lt_of_le hxj with rfl | hlt
      · exact hnd
      · exact h j hlt hjs
    · intro h j hxj hjs
      exact h j (Nat.le_of_succ_le hxj) hjs
  | case3 x hx =>
    rw [primeLoop.eq_def, dif_neg hx]
    simp only [true_iff]
    intro j hxj hjs
    exact absurd (Nat.le_trans hxj hjs) hx

lemma properSumLoop_eq (n : Nat) :
    ∀ i, properSumLoop n i = ∑ j in Finset.Ico i n, if j ∣ n then j else 0 := by
  intro i
  induction i using properSumLoop.induct n with
  | case1 x hx ih =>
    rw [properSumLoop.eq_def, dif_pos hx, ih,
      Finset.sum_eq_sum_Ico_succ_bot hx (fun j => if j ∣ n then j else 0)]
    congr 1
    by_cases hd : x ∣ n
    · rw [if_pos (Nat.dvd_iff_mod_eq_zero.mp hd), if_pos hd]
    · rw [if_neg (fun hm => hd (Nat.dvd_iff_mod_eq_zero.mpr hm)), if_neg hd]
  | case2 x hx =>
    rw [properSumLoop.eq_def, dif_neg hx, Finset.Ico_eq_empty hx, Finset.sum_empty]

lemma armSum_eq (d : Nat) (m : Nat) :
    armSum m d = ((Nat.digits 10 m).map (fun t => t ^ d)).sum := by
  induction m using Nat.strong_induction_on with
  | _ m ih =>
    by_cases hm : 0 < m
    · rw [armSum.eq_def, dif_pos hm, Nat.digits_def' (by norm_num : (1 : ℕ) < 10) hm,
        List.map_cons, List.sum_cons, ih (m / 10) (Nat.div_lt_self hm (by norm_num))]
    · have h0 : m = 0 := Nat.eq_zero_of_not_pos hm
      subst h0
      rw [armSum.eq_def, dif_neg hm, Nat.digits_zero, List.map_nil, List.sum_nil]

lemma digitLoop_eq (m : Nat) : digitLoop m = (Nat.digits 10 m).sum := by
  induction m using Nat.strong_induction_on with
  | _ m ih =>
    by_cases hm : m = 0
    · subst hm
      rw [digitLoop.eq_def, dif_pos rfl, Nat.digits_zero, List.sum_nil]
    · rw [digitLoop.eq_def, dif_neg hm,
        Nat.digits_def' (by norm_num : (1 : ℕ) < 10) (Nat.pos_of_ne_zero hm),
        List.sum_cons, ih (m / 10) (Nat.div_lt_self (Nat.pos_of_ne_zero hm) (by norm_num))]

lemma natDigitLen_eq (m : Nat) : natDigitLen m = specDigitCount m := by
  induction m using Nat.strong_induction_on with
  | _ m ih =>
    by_cases h10 : m < 10
    · rw [natDigitLen.eq_def, dif_pos h10]
      by_cases h0 : m = 0
      · subst h0; rfl
      · rw [specDigitCount, if_neg h0,
          Nat.digits_def' (by norm_num : (1 : ℕ) < 10) (Nat.pos_of_ne_zero h0),
          Nat.div_eq_of_lt h10, Nat.digits_zero, List.length_cons, List.length_nil]
    · have hm10 : 10 ≤ m := Nat.le_of_not_lt h10
      have hm : 0 < m := Nat.lt_of_lt_of_le (by norm_num) hm10
      have hdiv : 0 < m / 10 := Nat.div_pos hm10 (by norm_num)
      rw [natDigitLen.eq_def, dif_neg h10,
        ih (m / 10) (Nat.div_lt_self hm (by norm_num)),
        specDigitCount, specDigitCount, if_neg (Nat.pos_iff_ne_zero.mp hdiv),
        if_neg (Nat.pos_iff_ne_zero.mp hm),
        Nat.digits_def' (by norm_num : (1 : ℕ) < 10) hm, List.length_cons]
      omega

lemma propertiesOf_facts (n : Int) :
    (propertiesOf n).Sublist ["armstrong", "even", "odd"] ∧
    ((propertiesOf n).head? = some "armstrong" ↔ isArmstrong n = true) ∧
    (("even" ∈ propertiesOf n) ↔ n % 2 = 0) ∧
    (("odd" ∈ propertiesOf n) ↔ ¬ n % 2 = 0) ∧
    (propertiesOf n).getLast? = some (if n % 2 = 0 then "even" else "odd") := by
  unfold propertiesOf
  cases ha : isArmstrong n <;> by_cases he : n % 2 = 0 <;> simp [ha, he]

/-- Claim C2: `isPerfect n` is false for every `n ≤ 0`, and for `n > 0` it
is true exactly when the sum of the proper divisors of `n` (the divisors in
`1..n-1`, including 1 and excluding `n`) equals `n`; in particular
`isPerfect 28 = true`, `isPerfect 0 = false` and `isPerfect (-6) = false`. -/
theorem isPerfect_iff_proper_divisor_sum :
    (∀ n : Int, isPerfect n = true ↔
      0 < n ∧ (∑ j in Finset.Ico 1 n.toNat, if j ∣ n.toNat then j else 0) = n.toNat) ∧
    isPerfect 28 = true ∧ isPerfect 0 = false ∧ isPerfect (-6) = false := by
  refine ⟨fun n => ?_, by simp [isPerfect, properSumLoop], rfl, rfl⟩
  unfold isPerfect
  by_cases hn : n ≤ 0
  · rw [if_pos hn]
    simp only [Bool.false_eq_true, false_iff]
    rintro ⟨h0, _⟩
    omega
  · rw [if_neg hn, beq_iff_eq, properSumLoop_eq n.toNat 1]
    exact (and_iff_right (lt_of_not_le hn)).symm

/-- Claim C3: for every integer `n`, `digitSum n` is the sum of the decimal
digits of the absolute value of `n`, and is never negative; in particular
`digitSum (-123) = 6` and `digitSum 0 = 0`. -/
theorem digitSum_abs_digits :
    (∀ n : Int, digitSum n = ((Nat.digits 10 n.natAbs).sum : Int) ∧ 0 ≤ digitSum n) ∧
    digitSum (-123) = 6 ∧ digitSum 0 = 0 := by
  refine ⟨fun n => ⟨?_, ?_⟩, by simp [digitSum, digitLoop], by simp [digitSum, digitLoop]⟩
  · unfold digitSum
    exact_mod_cast digitLoop_eq n.natAbs
  · exact Int.natCast_nonneg _

/-- Claim C6: `isArmstrong n` is false for every `n < 0`, true at `0`
(digit count of 0 is 1 and `0 ^ 1 = 0`), and for `n ≥ 0` it is true exactly
when the sum of each decimal digit of `n` raised to the digit count of `n`
equals `n`; in particular `isArmstrong 153 = true` and
`isArmstrong 10 = false`. -/
theorem isArmstrong_iff_digit_pow_sum :
    (∀ n : Int, isArmstrong n = true ↔
      0 ≤ n ∧ (specDigitPowSum n.toNat : Int) = n) ∧
    isArmstrong 0 = true ∧ isArmstrong 153 = true ∧ isArmstrong 10 = false := by
  refine ⟨fun n => ?_, by simp [isArmstrong, armSum], by simp [isArmstrong, armSum, itoaLen, natDigitLen], by simp [isArmstrong, armSum, itoaLen, natDigitLen]⟩
  unfold isArmstrong
  rw [beq_iff_eq]
  by_cases hn : n < 0
  · have ht : n.toNat = 0 := Int.toNat_eq_zero.mpr (le_of_lt hn)
    rw [ht, armSum_eq, specDigitPowSum, Nat.digits_zero]
    simp only [List.map_nil, List.sum_nil, Nat.cast_zero]
    constructor
    · intro h0; exfalso; omega
    · rintro ⟨h0, _⟩; exact absurd h0 (not_le.mpr hn)
  · have hit : itoaLen n = specDigitCount n.toNat := by
      unfold itoaLen
      rw [if_neg hn, natDigitLen_eq]
    rw [hit, armSum_eq, specDigitPowSum]
    exact (and_iff_right (le_of_not_lt hn)).symm

/-- Claim C7: `isPrime n` is false for every `n < 2` (hence at 0, 1 and
all negatives), and for `n ≥ 2` it is true exactly when no integer in
`[2, floor (sqrt n)]` divides `n`; in particular `isPrime 2 = true`. -/
theorem isPrime_iff_no_small_divisor :
    (∀ n : Int, isPrime n = true ↔
      2 ≤ n ∧ ∀ j : Nat, 2 ≤ j → j ≤ Nat.sqrt n.toNat → ¬ j ∣ n.toNat) ∧
    isPrime 2 = true := by
  constructor
  · intro n
    unfold isPrime
    by_cases hn : n < 2
    · rw [if_pos hn]
      simp only [Bool.false_eq_true, false_iff]
      rintro ⟨h2, _⟩
      omega
    · rw [if_neg hn, primeLoop_eq_true_iff]
      constructor
      · intro h
        exact ⟨le_of_not_lt hn,
          fun j hj2 hjs hdvd => h j hj2 hjs (Nat.dvd_iff_mod_eq_zero.mp hdvd)⟩
      · rintro ⟨_, h⟩ j hj2 hjs hmod
        exact h j hj2 hjs (Nat.dvd_iff_mod_eq_zero.mpr hmod)
  · have hs : Nat.sqrt 2 = 1 := sqrt_eq_of_bounds 1 2 (by norm_num) (by norm_num)
    simp [isPrime, primeLoop, hs]

/-- Claim C4: in every success response, the `properties` list is an
in-order sublist of `[armstrong, even, odd]`, it starts with `armstrong`
exactly when the classified number is an Armstrong number, it contains
exactly one of `even`/`odd` according to the parity of the number, and that
parity tag is the last element. -/
theorem classifyNumber_properties_order (fetch : Int → FetchOutcome)
    (raw : List Char) (body : SuccessBody)
    (h : classifyNumber fetch raw = Response.ok body) :
    body.properties.Sublist ["armstrong", "even", "odd"] ∧
    (body.properties.head? = some "armstrong" ↔ isArmstrong body.number = true) ∧
    (("even" ∈ body.properties) ↔ body.number % 2 = 0) ∧
    (("odd" ∈ body.properties) ↔ ¬ body.number % 2 = 0) ∧
    body.properties.getLast? = some (if body.number % 2 = 0 then "even" else "odd") := by
  simp only [classifyNumber] at h
  cases hp : parseFloatM (trimSpace raw) with
  | none =>
    rw [hp] at h
    simp only at h
    exact Response.noConfusion h
  | some v =>
    rw [hp] at h
    simp only at h
    have hb : body = ⟨truncToInt v, isPrime (truncToInt v), isPerfect (truncToInt v),
        propertiesOf (truncToInt v), digitSum (truncToInt v),
        getFunFact fetch (truncToInt v)⟩ := by
      injection h with h1
      exact h1.symm
    subst hb
    exact propertiesOf_facts (truncToInt v)

/-- Claim C5: whenever the outbound fun-fact fetch fails in any way
(network error, undecodable body, or missing/non-string `text` field),
`getFunFact` returns the deterministic locally generated fallback string,
which contains the number; and the handler still answers status 200 for
every valid input, whatever the fetch outcome. -/
theorem getFunFact_fallback_on_failure (fetch : Int → FetchOutcome) (n : Int)
    (hfail : ∀ t, fetch n ≠ FetchOutcome.jsonValue (some t)) :
    getFunFact fetch n = fallbackFact n ∧
    (∃ suffix, getFunFact fetch n = toString n ++ suffix) ∧
    ∀ raw v, parseFloatM (trimSpace raw) = some v →
      statusOf (classifyNumber fetch raw) = 200 := by
  have hf : getFunFact fetch n = fallbackFact n := by
    unfold getFunFact
    cases ho : fetch n with
    | netError => rfl
    | decodeError => rfl
    | jsonValue t =>
      cases t with
      | none => rfl
      | some fact => exact absurd ho (hfail fact)
  refine ⟨hf, ⟨" is an interesting number!", hf⟩, fun raw v hp => ?_⟩
  simp only [classifyNumber, hp]
  rfl

/-- Claim C9: for every input whose trimmed form the parser rejects
(including the missing parameter, which arrives as the empty string, and
any non-numeric string), the handler answers status 400 with a body that
echoes the trimmed input in `number` and has `error = true`; no
classification output is produced for such a request. -/
theorem classifyNumber_rejects_invalid (fetch : Int → FetchOutcome) (raw : List Char)
    (h : parseFloatM (trimSpace raw) = none) :
    classifyNumber fetch raw = Response.badRequest ⟨trimSpace raw, true⟩ ∧
    statusOf (classifyNumber fetch raw) = 400 := by
  have h1 : classifyNumber fetch raw = Response.badRequest ⟨trimSpace raw, true⟩ := by
    simp only [classifyNumber, h]
  exact ⟨h1, by rw [h1]; rfl⟩

/-- Claim C8: surrounding whitespace is trimmed before validation: for
every integer literal `s`, padding `s` with whitespace on either side
yields exactly the same response as `s` itself, and that response is a
success classifying the integer value of `s`. -/
theorem classifyNumber_trims_whitespace (fetch : Int → FetchOutcome)
    (w1 w2 s : List Char)
    (hw1 : ∀ c ∈ w1, isSpaceChar c = true) (hw2 : ∀ c ∈ w2, isSpaceChar c = true)
    (hs : isIntLiteral s = true) :
    classifyNumber fetch (w1 ++ s ++ w2) = classifyNumber fetch s ∧
    ∃ body, classifyNumber fetch s = Response.ok body ∧ body.number = intLitVal s := by
  obtain ⟨hne, hnosp⟩ := intLit_chars s hs
  have hpad := trimSpace_pad w1 w2 s hw1 hw2 hnosp hne
  have hself := trimSpace_eq_self s hnosp
  have hp := parseFloatM_intLit s hs
  constructor
  · simp only [classifyNumber]
    rw [hpad, hself]
  · refine ⟨⟨truncToInt ⟨(parseSign s).1, natOfDigits (parseSign s).2, 0⟩,
      isPrime (truncToInt ⟨(parseSign s).1, natOfDigits (parseSign s).2, 0⟩),
      isPerfect (truncToInt ⟨(parseSign s).1, natOfDigits (parseSign s).2, 0⟩),
      propertiesOf (truncToInt ⟨(parseSign s).1, natOfDigits (parseSign s).2, 0⟩),
      digitSum (truncToInt ⟨(parseSign s).1, natOfDigits (parseSign s).2, 0⟩),
      getFunFact fetch (truncToInt ⟨(parseSign s).1, natOfDigits (parseSign s).2, 0⟩)⟩,
      ?_, ?_⟩
    · simp only [classifyNumber]
      rw [hself, hp]
    · rw [truncToInt_intLit]
      rfl


/-- Claim C1 (refuted by the code, supporting a code-bug verdict): the spec
requires any input containing a decimal point to be rejected with status 400
and never truncated, but `classifyNumber` in main.go parses the trimmed
query with `ParseFloat` and truncates: on input `4.5` it answers status 200
with `number = 4`, and never answers 400 on that input. -/
theorem classifyNumber_truncates_float_input :
    statusOf (classifyNumber (fun _ => FetchOutcome.netError) ['4', '.', '5']) = 200 ∧
    responseNumber (classifyNumber (fun _ => FetchOutcome.netError) ['4', '.', '5']) = some 4 ∧
    ∀ body, classifyNumber (fun _ => FetchOutcome.netError) ['4', '.', '5'] ≠
      Response.badRequest body := by
  refine ⟨rfl, rfl, fun body h => ?_⟩
  have h200 : statusOf (classifyNumber (fun _ => FetchOutcome.netError) ['4', '.', '5']) = 200 := rfl
  rw [h, statusOf] at h200
  exact absurd h200 (by decide)

/-- Claim C10: the accepted input language is that of
`strconv.ParseFloat`, strictly larger than the integer literals: the input
`1e3` contains no decimal point and is not an integer literal, yet the
handler accepts it and classifies the truncated float value 1000 with
status 200 (while `1000` itself is an integer literal). -/
theorem classifyNumber_accepts_float_syntax :
    statusOf (classifyNumber (fun _ => FetchOutcome.netError) ['1', 'e', '3']) = 200 ∧
    responseNumber (classifyNumber (fun _ => FetchOutcome.netError) ['1', 'e', '3']) = some 1000 ∧
    isIntLiteral ['1', 'e', '3'] = false ∧
    isIntLiteral ['1', '0', '0', '0'] = true :=
  ⟨rfl, rfl, rfl, rfl⟩

/-- Witness for claim C4 at the concrete request `number=0`. -/
theorem classifyNumber_properties_order_witness :
    (propertiesOf 0).Sublist ["armstrong", "even", "odd"] ∧
    ((propertiesOf 0).head? = some "armstrong" ↔ isArmstrong 0 = true) ∧
    (("even" ∈ propertiesOf 0) ↔ (0 : Int) % 2 = 0) ∧
    (("odd" ∈ propertiesOf 0) ↔ ¬ (0 : Int) % 2 = 0) ∧
    (propertiesOf 0).getLast? = some (if (0 : Int) % 2 = 0 then "even" else "odd") :=
  classifyNumber_properties_order (fun _ => FetchOutcome.netError) ['0']
    ⟨0, isPrime 0, isPerfect 0, propertiesOf 0, digitSum 0,
      getFunFact (fun _ => FetchOutcome.netError) 0⟩ rfl

/-- Witness for claim C5 at `n = 7` with the network call failing. -/
theorem getFunFact_fallback_on_failure_witness :
    getFunFact (fun _ => FetchOutcome.netError) 7 = fallbackFact 7 ∧
    (∃ suffix, getFunFact (fun _ => FetchOutcome.netError) 7 = toString (7 : Int) ++ suffix) ∧
    ∀ raw v, parseFloatM (trimSpace raw) = some v →
      statusOf (classifyNumber (fun _ => FetchOutcome.netError) raw) = 200 :=
  getFunFact_fallback_on_failure (fun _ => FetchOutcome.netError) 7
    (fun _ h => FetchOutcome.noConfusion h)

/-- Witness for claim C8 at the concrete padded request `number= 42 `. -/
theorem classifyNumber_trims_whitespace_witness :
    classifyNumber (fun _ => FetchOutcome.netError) ([' '] ++ ['4', '2'] ++ [' ']) =
      classifyNumber (fun _ => FetchOutcome.netError) ['4', '2'] ∧
    ∃ body, classifyNumber (fun _ => FetchOutcome.netError) ['4', '2'] = Response.ok body ∧
      body.number = intLitVal ['4', '2'] :=
  classifyNumber_trims_whitespace (fun _ => FetchOutcome.netError) [' '] [' '] ['4', '2']
    (by decide) (by decide) (by decide)

/-- Witness for claim C9 at the concrete request `number=abc`. -/
theorem classifyNumber_rejects_invalid_witness :
    classifyNumber (fun _ => FetchOutcome.netError) ['a', 'b', 'c'] =
      Response.badRequest ⟨['a', 'b', 'c'], true⟩ ∧
    statusOf (classifyNumber (fun _ => FetchOutcome.netError) ['a', 'b', 'c']) = 400 :=
  classifyNumber_rejects_invalid (fun _ => FetchOutcome.netError) ['a', 'b', 'c'] rfl
